import Mathlib

set_option maxRecDepth 8000

/-!
Verification of the OU-Studio/cf-inventory route handlers.

The repository's core logic is:
 * `verifyProxySignature` — HMAC-SHA256 verification of App Proxy query
   parameters (src/app/routes/apps.location-stock/route.ts and the near
   duplicates in src/unnamed/part_000..003);
 * `getAdminAccessToken` — a client-credentials token exchange with an
   in-memory cache (second file inside src/unnamed/part_002);
 * `getOfflineAccessTokenForShop` — offline-session lookup
   (src/unnamed/part_001);
 * country → location mapping and inventory-quantity extraction in the
   `loader` handlers.

Node's `crypto` HMAC-SHA256 is embedded concretely (full SHA-256 over byte
lists, bytes as `Nat`), so scenario claims evaluate to closed facts.
-/

namespace CfInventory

/-- Truncation to 32 bits (all SHA-256 word arithmetic is mod 2^32). -/
def w32 (n : Nat) : Nat := n % 4294967296

/-- 32-bit right rotation. -/
def rotr (k n : Nat) : Nat := w32 ((n >>> k) ||| (n <<< (32 - k)))

def bigSigma0 (x : Nat) : Nat := (rotr 2 x) ^^^ (rotr 13 x) ^^^ (rotr 22 x)

def bigSigma1 (x : Nat) : Nat := (rotr 6 x) ^^^ (rotr 11 x) ^^^ (rotr 25 x)

def smallSigma0 (x : Nat) : Nat := (rotr 7 x) ^^^ (rotr 18 x) ^^^ (x >>> 3)

def smallSigma1 (x : Nat) : Nat := (rotr 17 x) ^^^ (rotr 19 x) ^^^ (x >>> 10)

/-- The 64 SHA-256 round constants (FIPS 180-4), written in decimal. -/
def K256 : List Nat :=
  [1116352408, 1899447441, 3049323471, 3921009573, 961987163,
   1508970993, 2453635748, 2870763221, 3624381080, 310598401,
   607225278, 1426881987, 1925078388, 2162078206, 2614888103,
   3248222580, 3835390401, 4022224774, 264347078, 604807628,
   770255983, 1249150122, 1555081692, 1996064986, 2554220882,
   2821834349, 2952996808, 3210313671, 3336571891, 3584528711,
   113926993, 338241895, 666307205, 773529912, 1294757372,
   1396182291, 1695183700, 1986661051, 2177026350, 2456956037,
   2730485921, 2820302411, 3259730800, 3345764771, 3516065817,
   3600352804, 4094571909, 275423344, 430227734, 506948616,
   659060556, 883997877, 958139571, 1322822218, 1537002063,
   1747873779, 1955562222, 2024104815, 2227730452, 2361852424,
   2428436474, 2756734187, 3204031479, 3329325298]

/-- Eight-word SHA-256 working state. -/
structure Hash8 where
  a : Nat
  b : Nat
  c : Nat
  d : Nat
  e : Nat
  f : Nat
  g : Nat
  h : Nat
  deriving Repr, DecidableEq

/-- SHA-256 initial hash value (FIPS 180-4), written in decimal. -/
def initH : Hash8 :=
  ⟨1779033703, 3144134277, 1013904242, 2773480762,
   1359893119, 2600822924, 528734635, 1541459225⟩

/-- One SHA-256 compression round; `kw` is the pair (schedule word, round constant). -/
def round256 (s : Hash8) (kw : Nat × Nat) : Hash8 :=
  let ch := (s.e &&& s.f) ^^^ ((s.e ^^^ 4294967295) &&& s.g)
  let maj := (s.a &&& s.b) ^^^ (s.a &&& s.c) ^^^ (s.b &&& s.c)
  let t1 := w32 (s.h + bigSigma1 s.e + ch + kw.2 + kw.1)
  let t2 := w32 (bigSigma0 s.a + maj)
  ⟨w32 (t1 + t2), s.a, s.b, s.c, w32 (s.d + t1), s.e, s.f, s.g⟩

/-- Group a byte list into big-endian 32-bit words (each byte is below 256,
so the word is the base-256 value of the four bytes). -/
def bytesToWordsBE : List Nat → List Nat
  | b0 :: b1 :: b2 :: b3 :: rest =>
      (b0 * 16777216 + b1 * 65536 + b2 * 256 + b3) :: bytesToWordsBE rest
  | _ => []

/-- Extend the message schedule; `acc` holds the words produced so far, most recent first. -/
def extendSchedule : Nat → List Nat → List Nat
  | 0, acc => acc.reverse
  | n + 1, acc =>
      let g := fun i => acc.getD i 0
      extendSchedule n (w32 (smallSigma1 (g 1) + g 6 + smallSigma0 (g 14) + g 15) :: acc)

/-- The 64-word message schedule of one 64-byte block. -/
def messageSchedule (block : List Nat) : List Nat :=
  extendSchedule 48 (bytesToWordsBE block).reverse

/-- Compress one 64-byte block into the hash state. -/
def compressBlock (h : Hash8) (block : List Nat) : Hash8 :=
  let s := ((messageSchedule block).zip K256).foldl round256 h
  ⟨w32 (h.a + s.a), w32 (h.b + s.b), w32 (h.c + s.c), w32 (h.d + s.d),
   w32 (h.e + s.e), w32 (h.f + s.f), w32 (h.g + s.g), w32 (h.h + s.h)⟩

/-- `n` rendered as `k` bytes, big-endian. -/
def natToBytesBE : Nat → Nat → List Nat
  | 0, _ => []
  | k + 1, n => natToBytesBE k (n / 256) ++ [n % 256]

/-- SHA-256 padding: append 0x80, zeros, and the 64-bit big-endian bit length. -/
def sha256Pad (msg : List Nat) : List Nat :=
  let len := msg.length
  let zeros := (119 - len % 64) % 64
  msg ++ 128 :: List.replicate zeros 0 ++ natToBytesBE 8 (len * 8)

/-- Split into `n` blocks of 64 bytes. -/
def blocksOf : Nat → List Nat → List (List Nat)
  | 0, _ => []
  | n + 1, l => l.take 64 :: blocksOf n (l.drop 64)

/-- SHA-256 of a byte list, as a 32-byte list. -/
def sha256 (msg : List Nat) : List Nat :=
  let padded := sha256Pad msg
  let s := (blocksOf (padded.length / 64) padded).foldl compressBlock initH
  [s.a, s.b, s.c, s.d, s.e, s.f, s.g, s.h].foldr (fun w acc => natToBytesBE 4 w ++ acc) []

/-- HMAC-SHA256 (RFC 2104) over byte lists, 64-byte block size. -/
def hmacSha256 (key msg : List Nat) : List Nat :=
  let k0 := if key.length > 64 then sha256 key else key
  let kp := k0 ++ List.replicate (64 - k0.length) 0
  sha256 ((kp.map (· ^^^ 92)) ++ sha256 ((kp.map (· ^^^ 54)) ++ msg))

/-- The lowercase hex alphabet: digit codepoints 48–57 then 97–102. -/
def hexDigits : List Char :=
  (List.range 16).map fun n => if n < 10 then Char.ofNat (48 + n) else Char.ofNat (87 + n)

/-- Lowercase hex digit. -/
def hexDigit (n : Nat) : Char := hexDigits.getD n '0'

/-- Lowercase-hex rendering of a byte list (Node `digest("hex")`). -/
def toHex (bytes : List Nat) : String :=
  String.mk (bytes.foldr (fun b acc => hexDigit (b / 16) :: hexDigit (b % 16) :: acc) [])

/-- UTF-8 encoding of one scalar value (RFC 3629; byte values written
arithmetically: e.g. the lead byte `0b110xxxxx` is `192 + n / 64`). -/
def utf8EncodeChar (c : Char) : List Nat :=
  let n := c.toNat
  if n < 128 then [n]
  else if n < 2048 then [192 + n / 64, 128 + n % 64]
  else if n < 65536 then [224 + n / 4096, 128 + (n / 64) % 64, 128 + n % 64]
  else [240 + n / 262144, 128 + (n / 4096) % 64, 128 + (n / 64) % 64, 128 + n % 64]

/-- UTF-8 encoding of a character list. -/
def utf8EncodeList (cs : List Char) : List Nat :=
  cs.foldr (fun c acc => utf8EncodeChar c ++ acc) []

/-- UTF-8 encoding of a string (Node `Buffer.from(s, "utf8")`). -/
def utf8Encode (s : String) : List Nat :=
  utf8EncodeList s.data

/-- `crypto.createHmac("sha256", secret).update(message).digest("hex")`:
HMAC-SHA256 keyed by the UTF-8 bytes of `secret` over the UTF-8 bytes of
`message`, rendered as lowercase hex. -/
def hmacSha256Hex (secret message : String) : String :=
  toHex (hmacSha256 (utf8Encode secret) (utf8Encode message))

/-! ### Query parameters (`URLSearchParams`) -/

/-- `params.get(k)`: the value of the first pair whose key is `k`. -/
def getParam (params : List (String × String)) (k : String) : Option String :=
  (params.find? (fun p => p.1 == k)).map (·.2)

/-- `params.delete(k)`: remove every pair whose key is `k`. -/
def deleteParam (params : List (String × String)) (k : String) : List (String × String) :=
  params.filter (fun p => p.1 != k)

/-! ### `String.prototype.localeCompare`

The sort comparator in every `verifyProxySignature` variant is
`a.localeCompare(b)`, an external JS builtin. Modelled from the spec of that
builtin (Node with ICU, default locale, root collation), restricted to the
ASCII strings at play: strings are compared first by their sequences of
primary weights (digits sort before letters; letters compare by base letter,
case-folded), and ties are broken by case, lowercase before uppercase.
This gives, e.g., `"a" < "B"` (base letters a < b) although the codepoint
order has `"B" < "a"`. -/

/-- Primary collation weight of a codepoint: digits (48–57) sort below
letters; letters (lowercase 97–122, uppercase 65–90) compare by base letter,
case folded (an uppercase letter gets the weight of its lowercase form);
everything else is kept injective above. -/
def pw (n : Nat) : Nat :=
  if 48 ≤ n ∧ n ≤ 57 then 1000 + n
  else if 97 ≤ n ∧ n ≤ 122 then 2000 + n
  else if 65 ≤ n ∧ n ≤ 90 then 2032 + n
  else 3000000 + n

/-- Tertiary (case) weight of a codepoint: lowercase before uppercase. -/
def tw (n : Nat) : Nat := if 65 ≤ n ∧ n ≤ 90 then 1 else 0

/-- ICU root-collation primary weight of an ASCII character. -/
def primaryWeight (c : Char) : Nat := pw c.toNat

/-- Tertiary (case) weight: lowercase before uppercase. -/
def tertiaryWeight (c : Char) : Nat := tw c.toNat

/-- Lexicographic comparison of weight sequences. -/
def lexCmpNat : List Nat → List Nat → Ordering
  | [], [] => .eq
  | [], _ :: _ => .lt
  | _ :: _, [] => .gt
  | a :: as, b :: bs => (compare a b).then (lexCmpNat as bs)

/-- `s.localeCompare(t)` as an `Ordering`: primary pass, then case pass. -/
def localeCompare (s t : String) : Ordering :=
  (lexCmpNat (s.data.map primaryWeight) (t.data.map primaryWeight)).then
    (lexCmpNat (s.data.map tertiaryWeight) (t.data.map tertiaryWeight))

/-- Codepoint (byte-wise) comparison of strings, as the spec's
"byte/codepoint ordering". -/
def codepointCompare (s t : String) : Ordering :=
  lexCmpNat (s.data.map Char.toNat) (t.data.map Char.toNat)

/-! ### Sorting and message building -/

/-- Insert `x` before the first element whose key compares greater
(`Array.prototype.sort` is stable: a non-positive comparator result keeps
the earlier element first). -/
def insertPair (cmp : String → String → Ordering) (x : String × String) :
    List (String × String) → List (String × String)
  | [] => [x]
  | y :: ys =>
    match cmp x.1 y.1 with
    | .gt => y :: insertPair cmp x ys
    | _ => x :: y :: ys

/-- Stable sort of the parameter pairs by the key comparator, modelling
`[...params.entries()].sort(([a], [b]) => cmp(a, b))`. -/
def sortPairs (cmp : String → String → Ordering) (l : List (String × String)) :
    List (String × String) :=
  l.foldr (insertPair cmp) []

/-- `sorted.map(([k, v]) => k + "=" + v).join("")`. -/
def joinPairs (l : List (String × String)) : String :=
  l.foldr (fun p acc => p.1 ++ "=" ++ p.2 ++ acc) ""

/-- The signed message as the code builds it: pairs sorted by
`localeCompare` on keys, concatenated as `key=value` with no separator. -/
def canonicalMessage (params : List (String × String)) : String :=
  joinPairs (sortPairs localeCompare params)

/-- Modelled from the spec: the same message but with the pairs sorted by
byte/codepoint ordering of keys, as §4.1 step 3 words it. -/
def specCodepointMessage (params : List (String × String)) : String :=
  joinPairs (sortPairs codepointCompare params)

/-- `crypto.timingSafeEqual(Buffer.from(a, "utf8"), Buffer.from(b, "utf8"))`:
`none` models the `RangeError` thrown when the UTF-8 byte lengths differ;
otherwise the result is byte equality of the UTF-8 encodings. -/
def timingSafeEqualUtf8 (a b : String) : Option Bool :=
  if (utf8Encode a).length ≠ (utf8Encode b).length then none
  else some (utf8Encode a == utf8Encode b)

/-! ### `verifyProxySignature` variants -/

/-- `verifyProxySignature` of src/app/routes/apps.location-stock/route.ts
(same code in src/unnamed/part_000 and in the first file of part_002 up to
the comparison): extract `signature` (false when absent or empty — the JS
`!signature` falsy check), delete it, HMAC the
sorted-and-joined remainder with the configured secret, compare in the
`try`/`catch` whose `catch` returns false. There is no empty-secret guard
in this variant. -/
def verifyProxySignature (secret : String) (params : List (String × String)) : Bool :=
  match getParam params "signature" with
  | none => false
  | some signature =>
    if signature = "" then false
    else
      let message := canonicalMessage (deleteParam params "signature")
      let digest := hmacSha256Hex secret message
      match timingSafeEqualUtf8 digest signature with
      | none => false
      | some b => b

/-- `verifyProxySignature` of src/unnamed/part_001 and part_003: identical
except for the leading `if (!PROXY_SECRET) return false;` guard. -/
def verifyProxySignatureGuarded (secret : String) (params : List (String × String)) : Bool :=
  if secret = "" then false else verifyProxySignature secret params

/-- `verifyProxySignature` of the first file in src/unnamed/part_002: same
computation but the `timingSafeEqual` call is NOT wrapped in `try`/`catch`,
so a length mismatch propagates as a thrown `RangeError` (`none` here). -/
def verifyProxySignatureNoCatch (secret : String) (params : List (String × String)) :
    Option Bool :=
  match getParam params "signature" with
  | none => some false
  | some signature =>
    if signature = "" then some false
    else
      let message := canonicalMessage (deleteParam params "signature")
      let digest := hmacSha256Hex secret message
      timingSafeEqualUtf8 digest signature

/-! ### Strategy B: `getAdminAccessToken` (second file of src/unnamed/part_002) -/

/-- The module-level `cachedToken` record. -/
structure CachedToken where
  token : String
  expiresAtMs : Int
  deriving Repr, DecidableEq

/-- The observable part of the token-exchange `fetch` response: the HTTP
status data plus the two JSON body fields the code reads.
`accessToken = none` models a missing `access_token` field or an unparsable
body (`data` stays `null`); `some ""` is a present-but-falsy value.
`expiresIn` is `some n` exactly when `data.expires_in` is a number. -/
structure ExchangeResponse where
  ok : Bool
  status : Nat
  statusText : String
  accessToken : Option String
  expiresIn : Option Int
  deriving Repr, DecidableEq

/-- The two `throw new Error(...)` sites of `getAdminAccessToken`. -/
inductive ExchangeError where
  | httpError (status : Nat) (statusText : String)
  | noAccessToken
  deriving Repr, DecidableEq

/-- Result of one `getAdminAccessToken` call. -/
inductive ResolveResult where
  | ok (token : String)
  | err (e : ExchangeError)
  deriving Repr, DecidableEq

/-- One call's outcome: returned-or-thrown value, the `cachedToken` state
after the call, and whether the network exchange `fetch` was performed. -/
structure ResolveOutcome where
  result : ResolveResult
  cache : Option CachedToken
  exchanged : Bool
  deriving Repr, DecidableEq

/-- JS falsiness of `data?.access_token` (the `if (!token)` check). -/
def tokenFalsy : Option String → Bool
  | none => true
  | some s => s == ""

/-- `typeof expiresIn === "number" && expiresIn > 0 ? expiresIn * 1000 : 20 * 60 * 1000`. -/
def ttlMs (expiresIn : Option Int) : Int :=
  match expiresIn with
  | some n => if n > 0 then n * 1000 else 1200000
  | none => 1200000

/-- The exchange path of `getAdminAccessToken` (after the cache check):
non-ok status throws; a falsy `access_token` throws; otherwise the cache is
overwritten with `{token, expiresAtMs: now + ttl}` and the token returned. -/
def tokenExchange (now : Int) (cache : Option CachedToken) (resp : ExchangeResponse) :
    ResolveOutcome :=
  if !resp.ok then ⟨.err (.httpError resp.status resp.statusText), cache, true⟩
  else if tokenFalsy resp.accessToken then ⟨.err .noAccessToken, cache, true⟩
  else
    let t := resp.accessToken.getD ""
    ⟨.ok t, some ⟨t, now + ttlMs resp.expiresIn⟩, true⟩

/-- `getAdminAccessToken`, state passed explicitly: `now` is `Date.now()`,
`cache` the module-level `cachedToken` at entry, `resp` what the token
endpoint would answer (consulted only if the code reaches the `fetch`).
Cache hit: `cachedToken && cachedToken.expiresAtMs - now > 60_000`. -/
def getAdminAccessToken (now : Int) (cache : Option CachedToken)
    (resp : ExchangeResponse) : ResolveOutcome :=
  match cache with
  | some c =>
    if c.expiresAtMs - now > 60000 then ⟨.ok c.token, cache, false⟩
    else tokenExchange now cache resp
  | none => tokenExchange now cache resp

/-! ### Strategy C: `getOfflineAccessTokenForShop` (src/unnamed/part_001) -/

/-- A session record as the lookup reads it; a `none` entry in the session
list models a null element (the code guards with `s && ...`).
`accessToken = none` is a missing field; `some ""` is falsy. -/
structure Session where
  isOnline : Bool
  accessToken : Option String
  deriving Repr, DecidableEq

/-- Truthiness of `s.accessToken`. -/
def sessionTokenTruthy (s : Session) : Bool :=
  match s.accessToken with
  | none => false
  | some t => t != ""

/-- The predicate of `sessions.find(s => s && s.isOnline === false && s.accessToken)`. -/
def isOfflineWithToken : Option Session → Bool
  | none => false
  | some s => s.isOnline == false && sessionTokenTruthy s

/-- `getOfflineAccessTokenForShop`: first offline session with a truthy
token, then `offline?.accessToken || null`. -/
def getOfflineAccessTokenForShop (sessions : List (Option Session)) : Option String :=
  match sessions.find? isOfflineWithToken with
  | some (some s) => if sessionTokenTruthy s then s.accessToken else none
  | _ => none

/-! ### Country → location mapping and inventory shaping -/

/-- ASCII uppercasing of one character (JS `toUpperCase` restricted to the
ASCII country codes at play: a–z map to A–Z, everything else unchanged). -/
def upChar (c : Char) : Char :=
  if 97 ≤ c.toNat ∧ c.toNat ≤ 122 then Char.ofNat (c.toNat - 32) else c

/-- JS `String.prototype.toUpperCase` on ASCII strings. -/
def toUpperCase (s : String) : String := String.mk (s.data.map upChar)

/-- JS `String.prototype.trim` on ASCII strings: strip leading and trailing
whitespace. -/
def jsTrim (s : String) : String :=
  String.mk (((s.data.dropWhile Char.isWhitespace).reverse.dropWhile Char.isWhitespace).reverse)

/-- `country === "GB" || country === "UK" ? UK_LOCATION_ID : country === "US"
? US_LOCATION_ID : UK_LOCATION_ID`, applied to
`(url.searchParams.get("country") || "").toUpperCase()`. -/
def locationIdFor (ukLoc usLoc : String) (countryRaw : Option String) : String :=
  let country := toUpperCase (countryRaw.getD "")
  if country = "GB" || country = "UK" then ukLoc
  else if country = "US" then usLoc
  else ukLoc

/-- The JSON value found at
`data?.data?.productVariant?.inventoryItem?.inventoryLevel?.available`. -/
inductive JsonField where
  | missing
  | nullVal
  | num (n : Int)
  | nonNumeric (s : String)
  deriving Repr, DecidableEq

/-- `typeof qty === "number" ? qty : 0`. -/
def qtyOf : JsonField → Int
  | .num n => n
  | _ => 0

/-- The response handling of `getStockAtLocation` after the `fetch`:
`!resp.ok || data?.errors` throws, otherwise the quantity is extracted
with the numeric-type default. -/
def getStockAtLocation (httpOk : Bool) (hasErrors : Bool) (available : JsonField) :
    Except String Int :=
  if !httpOk || hasErrors then .error "admin_graphql"
  else .ok (qtyOf available)

/-- The `qty`/`available` fields of the 200 response body,
`JSON.stringify({..., qty, available: qty > 0})`. -/
structure StockBody where
  qty : Int
  available : Bool
  deriving Repr, DecidableEq

/-- Body construction from the resolved quantity. -/
def mkStockBody (qty : Int) : StockBody := ⟨qty, qty > 0⟩

/-! ### The `loader` of src/unnamed/part_001 -/

/-- The distinct responses the part_001 `loader` can emit (the country →
location computation feeds the abstracted stock call and is modelled by
`locationIdFor`). -/
inductive LoaderResponse where
  | invalidSignature
  | missingShop
  | invalidVariant
  | noOfflineSession (shop : String)
  | okResp (body : StockBody)
  | adminApiError (details : String)
  deriving Repr, DecidableEq

/-- The HTTP status each response is emitted with. -/
def loaderStatus : LoaderResponse → Nat
  | .invalidSignature => 401
  | .missingShop => 400
  | .invalidVariant => 400
  | .noOfflineSession _ => 401
  | .okResp _ => 200
  | .adminApiError _ => 502

/-- `/^\d+$/.test(variantId)`. -/
def isAllDigits (s : String) : Bool := s.length > 0 && s.data.all Char.isDigit

/-- The part_001 `loader`, network effects passed as arguments: `sessions`
is what `sessionStorage.findSessionsByShop(shop)` returns and `stock` the
outcome of `getStockAtLocation` when that call is reached. -/
def part1Loader (secret : String) (params : List (String × String))
    (sessions : List (Option Session)) (stock : Except String Int) : LoaderResponse :=
  if !(verifyProxySignatureGuarded secret params) then .invalidSignature
  else
    let variantId := (getParam params "variant").getD ""
    let shop := jsTrim ((getParam params "shop").getD "")
    if shop = "" then .missingShop
    else if !(isAllDigits variantId) then .invalidVariant
    else
      match getOfflineAccessTokenForShop sessions with
      | none => .noOfflineSession shop
      | some _ =>
        match stock with
        | .ok qty => .okResp (mkStockBody qty)
        | .error e => .adminApiError e

/-! ## Lemmas: UTF-8, hex, and the comparison step -/

theorem utf8EncodeChar_ascii {c : Char} (h : c.toNat < 128) : utf8EncodeChar c = [c.toNat] := by
  simp [utf8EncodeChar, h]

theorem ascii_of_utf8EncodeChar_lt {c : Char}
    (h : ∀ b ∈ utf8EncodeChar c, b < 128) : c.toNat < 128 := by
  by_contra hc
  push_neg at hc
  simp only [utf8EncodeChar] at h
  split_ifs at h with h1 h2 h3
  · omega
  · have := h (192 + c.toNat / 64) (by simp)
    omega
  · have := h (224 + c.toNat / 4096) (by simp)
    omega
  · have := h (240 + c.toNat / 262144) (by simp)
    omega

theorem utf8EncodeList_ascii :
    ∀ {cs : List Char}, (∀ c ∈ cs, c.toNat < 128) → utf8EncodeList cs = cs.map Char.toNat := by
  intro cs
  induction cs with
  | nil => intro _; rfl
  | cons c cs ih =>
    intro h
    have hc : c.toNat < 128 := h c (List.mem_cons_self c cs)
    show utf8EncodeChar c ++ utf8EncodeList cs = c.toNat :: cs.map Char.toNat
    rw [utf8EncodeChar_ascii hc, ih (fun d hd => h d (List.mem_cons_of_mem c hd))]
    rfl

theorem ascii_of_utf8EncodeList_lt :
    ∀ {cs : List Char}, (∀ b ∈ utf8EncodeList cs, b < 128) → ∀ c ∈ cs, c.toNat < 128 := by
  intro cs
  induction cs with
  | nil => intro _ c hc; cases hc
  | cons c cs ih =>
    intro h d hd
    have hsplit : ∀ b, b ∈ utf8EncodeChar c ∨ b ∈ utf8EncodeList cs → b < 128 := by
      intro b hb
      exact h b (by simpa [utf8EncodeList, List.mem_append] using hb)
    rcases List.mem_cons.1 hd with rfl | hdc
    · exact ascii_of_utf8EncodeChar_lt fun b hb => hsplit b (Or.inl hb)
    · exact ih (fun b hb => hsplit b (Or.inr hb)) d hdc

theorem charToNat_inj {c d : Char} (h : c.toNat = d.toNat) : c = d := by
  have := congrArg Char.ofNat h
  rwa [Char.ofNat_toNat, Char.ofNat_toNat] at this

theorem map_charToNat_inj :
    ∀ {l1 l2 : List Char}, l1.map Char.toNat = l2.map Char.toNat → l1 = l2 := by
  intro l1
  induction l1 with
  | nil => intro l2 h; cases l2 <;> simp_all
  | cons a as ih =>
    intro l2 h
    cases l2 with
    | nil => simp_all
    | cons b bs =>
      simp only [List.map_cons, List.cons.injEq] at h
      exact List.cons_eq_cons.2 ⟨charToNat_inj h.1, ih h.2⟩

theorem utf8Encode_eq_iff_of_ascii {s t : String} (hs : ∀ c ∈ s.data, c.toNat < 128) :
    utf8Encode s = utf8Encode t ↔ s = t := by
  constructor
  · intro h
    have hsenc : utf8Encode s = s.data.map Char.toNat := utf8EncodeList_ascii hs
    have hbytes : ∀ b ∈ utf8Encode t, b < 128 := by
      rw [← h, hsenc]
      intro b hb
      obtain ⟨c, hc, rfl⟩ := List.mem_map.1 hb
      exact hs c hc
    have ht : ∀ c ∈ t.data, c.toNat < 128 := ascii_of_utf8EncodeList_lt hbytes
    have hmap : s.data.map Char.toNat = t.data.map Char.toNat := by
      rw [← hsenc, h]
      exact utf8EncodeList_ascii ht
    exact String.ext (map_charToNat_inj hmap)
  · rintro rfl; rfl

theorem hexDigit_overflow (n : Nat) : hexDigit (n + 16) = '0' := by
  unfold hexDigit
  apply List.getD_eq_default
  show hexDigits.length ≤ n + 16
  rw [show hexDigits.length = 16 from by simp [hexDigits]]
  omega

theorem hexDigit_ascii (n : Nat) : (hexDigit n).toNat < 128 := by
  rcases n with _ | _ | _ | _ | _ | _ | _ | _ | _ | _ | _ | _ | _ | _ | _ | _ | n <;> try decide
  rw [hexDigit_overflow]
  decide

theorem toHex_ascii (bytes : List Nat) : ∀ c ∈ (toHex bytes).data, c.toNat < 128 := by
  show ∀ c ∈ bytes.foldr (fun b acc => hexDigit (b / 16) :: hexDigit (b % 16) :: acc) [], _
  induction bytes with
  | nil => intro c hc; cases hc
  | cons b bs ih =>
    intro c hc
    rcases List.mem_cons.1 hc with rfl | hc'
    · exact hexDigit_ascii _
    · rcases List.mem_cons.1 hc' with rfl | hc''
      · exact hexDigit_ascii _
      · exact ih c hc''

theorem hmacSha256Hex_ascii (secret msg : String) :
    ∀ c ∈ (hmacSha256Hex secret msg).data, c.toNat < 128 :=
  toHex_ascii _

theorem natToBytesBE_length : ∀ k n, (natToBytesBE k n).length = k := by
  intro k
  induction k with
  | zero => intro n; rfl
  | succ k ih =>
    intro n
    simp [natToBytesBE, ih]

theorem foldr_words_length (ws : List Nat) :
    (ws.foldr (fun w acc => natToBytesBE 4 w ++ acc) []).length = 4 * ws.length := by
  induction ws with
  | nil => rfl
  | cons w ws ih =>
    simp [natToBytesBE_length, ih]
    omega

theorem sha256_length (msg : List Nat) : (sha256 msg).length = 32 := by
  simp [sha256, foldr_words_length, natToBytesBE_length]

theorem hmacSha256Hex_ne_empty (secret msg : String) : hmacSha256Hex secret msg ≠ "" := by
  unfold hmacSha256Hex toHex
  have h32 : (hmacSha256 (utf8Encode secret) (utf8Encode msg)).length = 32 := sha256_length _
  intro he
  cases hb : hmacSha256 (utf8Encode secret) (utf8Encode msg) with
  | nil => rw [hb] at h32; simp at h32
  | cons b bs =>
    rw [hb] at he
    have := congrArg String.data he
    simp at this

/-- The `try { return crypto.timingSafeEqual(...) } catch { return false }`
block returns true exactly when the supplied signature is the digest string,
for an ASCII digest. -/
theorem timingSafe_catch_eq {digest sig : String} (hd : ∀ c ∈ digest.data, c.toNat < 128) :
    (match timingSafeEqualUtf8 digest sig with | none => false | some b => b) = true ↔
      sig = digest := by
  unfold timingSafeEqualUtf8
  split_ifs with h
  · simp only [Bool.false_eq_true, false_iff]
    intro heq
    exact h (by rw [heq])
  · constructor
    · intro hb
      have : utf8Encode digest = utf8Encode sig := by
        simpa using hb
      exact ((utf8Encode_eq_iff_of_ascii hd).1 this).symm
    · rintro rfl
      simp

/-- Characterization of the route.ts verifier: with the signature parameter
present, acceptance is exactly string identity between the supplied
signature and the recomputed hex digest. -/
theorem verifyProxySignature_iff {params : List (String × String)} {secret sig : String}
    (h : getParam params "signature" = some sig) :
    verifyProxySignature secret params = true ↔
      sig = hmacSha256Hex secret (canonicalMessage (deleteParam params "signature")) := by
  have hbody : verifyProxySignature secret params =
      (if sig = "" then false
       else
        match timingSafeEqualUtf8
            (hmacSha256Hex secret (canonicalMessage (deleteParam params "signature"))) sig with
        | none => false
        | some b => b) := by
    unfold verifyProxySignature
    rw [h]
  rw [hbody]
  by_cases hs : sig = ""
  · subst hs
    rw [if_pos rfl]
    simp only [Bool.false_eq_true, false_iff]
    exact fun heq => hmacSha256Hex_ne_empty secret _ heq.symm
  · rw [if_neg hs]
    exact timingSafe_catch_eq (hmacSha256Hex_ascii _ _)

/-! ## Lemmas: the collation order and stable sorting -/

theorem then_eq_eq {o1 o2 : Ordering} : o1.then o2 = .eq ↔ o1 = .eq ∧ o2 = .eq := by
  cases o1 <;> simp [Ordering.then]

theorem then_eq_lt {o1 o2 : Ordering} : o1.then o2 = .lt ↔ o1 = .lt ∨ (o1 = .eq ∧ o2 = .lt) := by
  cases o1 <;> simp [Ordering.then]

theorem swap_then (o1 o2 : Ordering) : (o1.then o2).swap = o1.swap.then o2.swap := by
  cases o1 <;> rfl

theorem natCompare_swap (a b : Nat) : (compare a b).swap = compare b a := by
  rcases Nat.lt_trichotomy a b with h | rfl | h
  · rw [Nat.compare_eq_lt.2 h, Nat.compare_eq_gt.2 h]
    rfl
  · rw [Nat.compare_eq_eq.2 rfl]
    rfl
  · rw [Nat.compare_eq_gt.2 h, Nat.compare_eq_lt.2 h]
    rfl

theorem lexCmpNat_eq_iff : ∀ {l1 l2 : List Nat}, lexCmpNat l1 l2 = .eq ↔ l1 = l2 := by
  intro l1
  induction l1 with
  | nil => intro l2; cases l2 <;> simp [lexCmpNat]
  | cons a as ih =>
    intro l2
    cases l2 with
    | nil => simp [lexCmpNat]
    | cons b bs =>
      show (compare a b).then (lexCmpNat as bs) = .eq ↔ _
      rw [then_eq_eq]
      simp [Nat.compare_eq_eq, ih]

theorem lexCmpNat_swap : ∀ (l1 l2 : List Nat), (lexCmpNat l1 l2).swap = lexCmpNat l2 l1 := by
  intro l1
  induction l1 with
  | nil => intro l2; cases l2 <;> rfl
  | cons a as ih =>
    intro l2
    cases l2 with
    | nil => rfl
    | cons b bs =>
      show ((compare a b).then (lexCmpNat as bs)).swap = (compare b a).then (lexCmpNat bs as)
      rw [swap_then, natCompare_swap, ih]

theorem lexCmpNat_lt_trans :
    ∀ {l1 l2 l3 : List Nat},
      lexCmpNat l1 l2 = .lt → lexCmpNat l2 l3 = .lt → lexCmpNat l1 l3 = .lt := by
  intro l1
  induction l1 with
  | nil =>
    intro l2 l3 h12 h23
    cases l2 with
    | nil => simp [lexCmpNat] at h12
    | cons b bs =>
      cases l3 with
      | nil => simp [lexCmpNat] at h23
      | cons c cs => rfl
  | cons a as ih =>
    intro l2 l3 h12 h23
    cases l2 with
    | nil => simp [lexCmpNat] at h12
    | cons b bs =>
      cases l3 with
      | nil => simp [lexCmpNat] at h23
      | cons c cs =>
        have h12' : compare a b = .lt ∨ (a = b ∧ lexCmpNat as bs = .lt) := by
          have h := h12
          rw [show lexCmpNat (a :: as) (b :: bs) = (compare a b).then (lexCmpNat as bs) from rfl,
            then_eq_lt] at h
          simpa [Nat.compare_eq_eq] using h
        have h23' : compare b c = .lt ∨ (b = c ∧ lexCmpNat bs cs = .lt) := by
          have h := h23
          rw [show lexCmpNat (b :: bs) (c :: cs) = (compare b c).then (lexCmpNat bs cs) from rfl,
            then_eq_lt] at h
          simpa [Nat.compare_eq_eq] using h
        show (compare a c).then (lexCmpNat as cs) = .lt
        rw [then_eq_lt]
        rcases h12' with h12' | ⟨rfl, h12t⟩ <;> rcases h23' with h23' | ⟨rfl, h23t⟩
        · exact Or.inl (Nat.compare_eq_lt.2
            (Nat.lt_trans (Nat.compare_eq_lt.1 h12') (Nat.compare_eq_lt.1 h23')))
        · exact Or.inl h12'
        · exact Or.inl h23'
        · exact Or.inr ⟨Nat.compare_eq_eq.2 rfl, ih h12t h23t⟩

theorem pw_tw_inj {m n : Nat} (hp : pw m = pw n) (ht : tw m = tw n) : m = n := by
  unfold pw at hp
  unfold tw at ht
  split_ifs at hp ht <;> omega

theorem weights_inj : ∀ {l1 l2 : List Char},
    l1.map primaryWeight = l2.map primaryWeight →
    l1.map tertiaryWeight = l2.map tertiaryWeight → l1 = l2 := by
  intro l1
  induction l1 with
  | nil => intro l2 h _; cases l2 <;> simp_all
  | cons a as ih =>
    intro l2 hp ht
    cases l2 with
    | nil => simp_all
    | cons b bs =>
      simp only [List.map_cons, List.cons.injEq] at hp ht
      have hp1 : pw a.toNat = pw b.toNat := hp.1
      have ht1 : tw a.toNat = tw b.toNat := ht.1
      exact List.cons_eq_cons.2 ⟨charToNat_inj (pw_tw_inj hp1 ht1), ih hp.2 ht.2⟩

theorem localeCompare_eq_eq {s t : String} (h : localeCompare s t = .eq) : s = t := by
  unfold localeCompare at h
  rw [then_eq_eq] at h
  exact String.ext (weights_inj (lexCmpNat_eq_iff.1 h.1) (lexCmpNat_eq_iff.1 h.2))

theorem localeCompare_swap (s t : String) : (localeCompare s t).swap = localeCompare t s := by
  unfold localeCompare
  rw [swap_then, lexCmpNat_swap, lexCmpNat_swap]

theorem localeCompare_lt_trans {s t u : String}
    (h1 : localeCompare s t = .lt) (h2 : localeCompare t u = .lt) :
    localeCompare s u = .lt := by
  unfold localeCompare at h1 h2 ⊢
  rw [then_eq_lt] at h1 h2 ⊢
  rcases h1 with h1 | ⟨h1e, h1t⟩ <;> rcases h2 with h2 | ⟨h2e, h2t⟩
  · exact Or.inl (lexCmpNat_lt_trans h1 h2)
  · exact Or.inl (by rw [← lexCmpNat_eq_iff.1 h2e]; exact h1)
  · exact Or.inl (by rw [lexCmpNat_eq_iff.1 h1e]; exact h2)
  · refine Or.inr ⟨lexCmpNat_eq_iff.2 ((lexCmpNat_eq_iff.1 h1e).trans (lexCmpNat_eq_iff.1 h2e)),
      lexCmpNat_lt_trans h1t h2t⟩

/-- The relation the verifier's sort establishes: the key of `p` does not
compare after the key of `q`. -/
def keyLE (p q : String × String) : Prop := localeCompare p.1 q.1 ≠ .gt

theorem keyLE_of_gt {p q : String × String} (h : localeCompare p.1 q.1 = .gt) : keyLE q p := by
  unfold keyLE
  rw [← localeCompare_swap, h]
  simp [Ordering.swap]

theorem keyLE_of_lt {p q : String × String} (h : localeCompare p.1 q.1 = .lt) : keyLE p q := by
  unfold keyLE
  rw [h]
  simp

theorem keyLE_trans {p q r : String × String} (h1 : keyLE p q) (h2 : keyLE q r) : keyLE p r := by
  unfold keyLE at h1 h2 ⊢
  cases hpq : localeCompare p.1 q.1 with
  | gt => exact absurd hpq h1
  | eq => rw [localeCompare_eq_eq hpq]; exact h2
  | lt =>
    cases hqr : localeCompare q.1 r.1 with
    | gt => exact absurd hqr h2
    | eq => rw [← localeCompare_eq_eq hqr]; rw [hpq]; simp
    | lt => rw [localeCompare_lt_trans hpq hqr]; simp

theorem keyLE_antisymm {p q : String × String} (h1 : keyLE p q) (h2 : keyLE q p) :
    p.1 = q.1 := by
  unfold keyLE at h1 h2
  cases h : localeCompare p.1 q.1 with
  | eq => exact localeCompare_eq_eq h
  | gt => exact absurd h h1
  | lt =>
    exfalso
    apply h2
    rw [← localeCompare_swap, h]
    rfl

theorem insertPair_perm (cmp : String → String → Ordering) (x : String × String) :
    ∀ l, (insertPair cmp x l).Perm (x :: l) := by
  intro l
  induction l with
  | nil => exact List.Perm.refl _
  | cons y ys ih =>
    cases hc : cmp x.1 y.1 with
    | gt =>
      simp only [insertPair, hc]
      exact (ih.cons y).trans (List.Perm.swap x y ys)
    | lt =>
      simp only [insertPair, hc]
      exact List.Perm.refl _
    | eq =>
      simp only [insertPair, hc]
      exact List.Perm.refl _

theorem sortPairs_perm (cmp : String → String → Ordering) (l : List (String × String)) :
    (sortPairs cmp l).Perm l := by
  induction l with
  | nil => exact List.Perm.refl _
  | cons a t ih =>
    show (insertPair cmp a (sortPairs cmp t)).Perm (a :: t)
    exact (insertPair_perm cmp a _).trans (ih.cons a)

theorem pairwise_insertPair {x : String × String} :
    ∀ {l}, l.Pairwise keyLE → (insertPair localeCompare x l).Pairwise keyLE := by
  intro l
  induction l with
  | nil => intro _; simp [insertPair]
  | cons y ys ih =>
    intro h
    rcases List.pairwise_cons.1 h with ⟨hy, hys⟩
    cases hc : localeCompare x.1 y.1 with
    | gt =>
      simp only [insertPair, hc]
      refine List.pairwise_cons.2 ⟨?_, ih hys⟩
      intro z hz
      rcases List.mem_cons.1 ((insertPair_perm localeCompare x ys).mem_iff.1 hz) with rfl | hzys
      · exact keyLE_of_gt hc
      · exact hy z hzys
    | lt =>
      simp only [insertPair, hc]
      refine List.pairwise_cons.2 ⟨?_, h⟩
      intro z hz
      rcases List.mem_cons.1 hz with rfl | hzys
      · exact keyLE_of_lt hc
      · exact keyLE_trans (keyLE_of_lt hc) (hy z hzys)
    | eq =>
      have hxy : keyLE x y := by unfold keyLE; rw [hc]; simp
      simp only [insertPair, hc]
      refine List.pairwise_cons.2 ⟨?_, h⟩
      intro z hz
      rcases List.mem_cons.1 hz with rfl | hzys
      · exact hxy
      · exact keyLE_trans hxy (hy z hzys)

theorem pairwise_sortPairs (l : List (String × String)) :
    (sortPairs localeCompare l).Pairwise keyLE := by
  induction l with
  | nil => exact List.Pairwise.nil
  | cons a t ih => exact pairwise_insertPair ih

theorem keys_nodup_unique :
    ∀ {l : List (String × String)}, (l.map Prod.fst).Nodup →
      ∀ {p q}, p ∈ l → q ∈ l → p.1 = q.1 → p = q := by
  intro l
  induction l with
  | nil => intro _ p q hp; cases hp
  | cons a t ih =>
    intro h p q hp hq hk
    have h' : a.1 ∉ t.map Prod.fst ∧ (t.map Prod.fst).Nodup := List.nodup_cons.1 h
    rcases List.mem_cons.1 hp with rfl | hp' <;> rcases List.mem_cons.1 hq with rfl | hq'
    · rfl
    · exact absurd (by rw [hk]; exact List.mem_map_of_mem Prod.fst hq') h'.1
    · exact absurd (by rw [← hk]; exact List.mem_map_of_mem Prod.fst hp') h'.1
    · exact ih h'.2 hp' hq' hk

theorem sorted_perm_nodup_eq :
    ∀ {l1 l2 : List (String × String)}, l1.Pairwise keyLE → l2.Pairwise keyLE →
      l1.Perm l2 → (l1.map Prod.fst).Nodup → l1 = l2 := by
  intro l1
  induction l1 with
  | nil => intro l2 _ _ hp _; exact hp.nil_eq
  | cons a t1 ih =>
    intro l2 h1 h2 hp hnd
    have ha2 : a ∈ l2 := hp.mem_iff.1 (List.mem_cons_self a t1)
    cases l2 with
    | nil => cases ha2
    | cons b t2 =>
      have hab : a = b := by
        rcases List.mem_cons.1 ha2 with h | ha2'
        · exact h
        · have hb1 : b ∈ a :: t1 := hp.symm.mem_iff.1 (List.mem_cons_self b t2)
          rcases List.mem_cons.1 hb1 with h | hb1'
          · exact h.symm
          · have hk : a.1 = b.1 :=
              keyLE_antisymm ((List.pairwise_cons.1 h1).1 b hb1')
                ((List.pairwise_cons.1 h2).1 a ha2')
            exfalso
            have hh : a.1 ∉ t1.map Prod.fst := (List.nodup_cons.1 hnd).1
            exact hh (by rw [hk]; exact List.mem_map_of_mem Prod.fst hb1')
      subst hab
      have hnd' : (t1.map Prod.fst).Nodup := (List.nodup_cons.1 hnd).2
      rw [ih (List.pairwise_cons.1 h1).2 (List.pairwise_cons.1 h2).2 hp.cons_inv hnd']

theorem getParam_perm {l1 l2 : List (String × String)} (hp : l1.Perm l2)
    (hnd : (l1.map Prod.fst).Nodup) (k : String) : getParam l1 k = getParam l2 k := by
  unfold getParam
  cases h1 : l1.find? (fun p => p.1 == k) with
  | none =>
    have h2 : l2.find? (fun p => p.1 == k) = none := by
      rw [List.find?_eq_none] at h1 ⊢
      intro x hx
      exact h1 x (hp.mem_iff.2 hx)
    rw [h2]
  | some p =>
    have hpk : p.1 = k := by simpa using List.find?_some h1
    have hpmem : p ∈ l2 := hp.mem_iff.1 (List.mem_of_find?_eq_some h1)
    cases h2 : l2.find? (fun p => p.1 == k) with
    | none =>
      rw [List.find?_eq_none] at h2
      have := h2 p hpmem
      simp [hpk] at this
    | some q =>
      have hqk : q.1 = k := by simpa using List.find?_some h2
      have hqmem : q ∈ l1 := hp.mem_iff.2 (List.mem_of_find?_eq_some h2)
      rw [keys_nodup_unique hnd (List.mem_of_find?_eq_some h1) hqmem (hpk.trans hqk.symm)]

/-! ## Lemmas: agreement of the collation with codepoint order on lowercase keys -/

/-- Codepoints of lowercase ASCII letters and digits. -/
def lowerAlnum (n : Nat) : Prop := (48 ≤ n ∧ n ≤ 57) ∨ (97 ≤ n ∧ n ≤ 122)

instance (n : Nat) : Decidable (lowerAlnum n) := by
  unfold lowerAlnum
  infer_instance

theorem pw_compare {a b : Nat} (ha : lowerAlnum a) (hb : lowerAlnum b) :
    compare (pw a) (pw b) = compare a b := by
  rcases Nat.lt_trichotomy a b with h | rfl | h
  · have hpw : pw a < pw b := by
      unfold pw
      rcases ha with ha | ha <;> rcases hb with hb | hb <;> split_ifs <;> omega
    rw [Nat.compare_eq_lt.2 h, Nat.compare_eq_lt.2 hpw]
  · rw [Nat.compare_eq_eq.2 rfl, Nat.compare_eq_eq.2 rfl]
  · have hpw : pw b < pw a := by
      unfold pw
      rcases ha with ha | ha <;> rcases hb with hb | hb <;> split_ifs <;> omega
    rw [Nat.compare_eq_gt.2 h, Nat.compare_eq_gt.2 hpw]

theorem lexCmp_map_pw :
    ∀ {l1 l2 : List Nat}, (∀ n ∈ l1, lowerAlnum n) → (∀ n ∈ l2, lowerAlnum n) →
      lexCmpNat (l1.map pw) (l2.map pw) = lexCmpNat l1 l2 := by
  intro l1
  induction l1 with
  | nil => intro l2 _ _; cases l2 <;> rfl
  | cons a as ih =>
    intro l2 h1 h2
    cases l2 with
    | nil => rfl
    | cons b bs =>
      show (compare (pw a) (pw b)).then (lexCmpNat (as.map pw) (bs.map pw)) = _
      rw [pw_compare (h1 a (List.mem_cons_self a as)) (h2 b (List.mem_cons_self b bs)),
        ih (fun n hn => h1 n (List.mem_cons_of_mem a hn))
          (fun n hn => h2 n (List.mem_cons_of_mem b hn))]
      rfl

theorem localeCompare_eq_codepoint {s t : String}
    (hs : ∀ c ∈ s.data, lowerAlnum c.toNat) (ht : ∀ c ∈ t.data, lowerAlnum c.toNat) :
    localeCompare s t = codepointCompare s t := by
  have hs' : ∀ n ∈ s.data.map Char.toNat, lowerAlnum n := by
    intro n hn
    obtain ⟨c, hc, rfl⟩ := List.mem_map.1 hn
    exact hs c hc
  have ht' : ∀ n ∈ t.data.map Char.toNat, lowerAlnum n := by
    intro n hn
    obtain ⟨c, hc, rfl⟩ := List.mem_map.1 hn
    exact ht c hc
  have hmapS : s.data.map primaryWeight = (s.data.map Char.toNat).map pw := by
    rw [List.map_map]
    rfl
  have hmapT : t.data.map primaryWeight = (t.data.map Char.toNat).map pw := by
    rw [List.map_map]
    rfl
  unfold localeCompare codepointCompare
  rw [hmapS, hmapT, lexCmp_map_pw hs' ht']
  cases hc : lexCmpNat (s.data.map Char.toNat) (t.data.map Char.toNat) with
  | lt => rfl
  | gt => rfl
  | eq =>
    have hdata : s.data = t.data := map_charToNat_inj (lexCmpNat_eq_iff.1 hc)
    rw [show s.data.map tertiaryWeight = t.data.map tertiaryWeight from by rw [hdata],
      lexCmpNat_eq_iff.2 rfl]
    rfl

theorem insertPair_congr {cmp1 cmp2 : String → String → Ordering} {x : String × String} :
    ∀ {l}, (∀ y ∈ l, cmp1 x.1 y.1 = cmp2 x.1 y.1) →
      insertPair cmp1 x l = insertPair cmp2 x l := by
  intro l
  induction l with
  | nil => intro _; rfl
  | cons y ys ih =>
    intro h
    have hy : cmp1 x.1 y.1 = cmp2 x.1 y.1 := h y (List.mem_cons_self y ys)
    show (match cmp1 x.1 y.1 with
          | .gt => y :: insertPair cmp1 x ys
          | _ => x :: y :: ys) =
        (match cmp2 x.1 y.1 with
          | .gt => y :: insertPair cmp2 x ys
          | _ => x :: y :: ys)
    rw [← hy]
    cases cmp1 x.1 y.1 with
    | gt =>
      show y :: insertPair cmp1 x ys = y :: insertPair cmp2 x ys
      rw [ih (fun z hz => h z (List.mem_cons_of_mem y hz))]
    | lt => rfl
    | eq => rfl

theorem sortPairs_congr {cmp1 cmp2 : String → String → Ordering} :
    ∀ {l}, (∀ p ∈ l, ∀ q ∈ l, cmp1 p.1 q.1 = cmp2 p.1 q.1) →
      sortPairs cmp1 l = sortPairs cmp2 l := by
  intro l
  induction l with
  | nil => intro _; rfl
  | cons a t ih =>
    intro h
    show insertPair cmp1 a (sortPairs cmp1 t) = insertPair cmp2 a (sortPairs cmp2 t)
    rw [ih (fun p hp q hq => h p (List.mem_cons_of_mem a hp) q (List.mem_cons_of_mem a hq))]
    apply insertPair_congr
    intro y hy
    exact h a (List.mem_cons_self a t) y
      (List.mem_cons_of_mem a ((sortPairs_perm cmp2 t).mem_iff.1 hy))

/-- On parameter lists whose keys consist of lowercase ASCII letters and
digits, the code's localeCompare sort and the spec's codepoint sort build
the same signed message. -/
theorem lowerKeys_canonical_eq_spec (params : List (String × String))
    (h : ∀ p ∈ params, ∀ c ∈ p.1.data, lowerAlnum c.toNat) :
    canonicalMessage params = specCodepointMessage params := by
  unfold canonicalMessage specCodepointMessage
  congr 1
  apply sortPairs_congr
  intro p hp q hq
  exact localeCompare_eq_codepoint (fun c hc => h p hp c hc) (fun c hc => h q hq c hc)

/-! ## Claim C1 -/

/-- Claim C1: for every query-parameter set containing a signature and every
secret, `verifyProxySignature` removes the signature parameter, sorts the
remaining pairs by key, concatenates them as `key=value` with no separator,
computes HMAC-SHA256 of that message keyed by the secret and rendered as
lowercase hex, and accepts iff the supplied signature is byte-identical to
that digest; in particular for params `foo=1, bar=2` and secret `shhh` the
accepted signature is exactly HMAC-SHA256 of `bar=2foo=1`, given as a
concrete hex constant. -/
theorem verify_accepts_exactly_hmac :
    (∀ (params : List (String × String)) (secret sig : String),
        getParam params "signature" = some sig →
        (verifyProxySignature secret params = true ↔
          sig = hmacSha256Hex secret (canonicalMessage (deleteParam params "signature")))) ∧
    (∀ sig : String,
        verifyProxySignature "shhh" [("foo", "1"), ("bar", "2"), ("signature", sig)] = true ↔
          sig = hmacSha256Hex "shhh" "bar=2foo=1") ∧
    hmacSha256Hex "shhh" "bar=2foo=1" =
      "25d2d5bbb7e2178da8e352c5c31e23cab4e69b9747955b49f0cd080b34f45b25" := by
  refine ⟨fun params secret sig h => verifyProxySignature_iff h, fun sig => ?_, by decide⟩
  have h : getParam [("foo", "1"), ("bar", "2"), ("signature", sig)] "signature" = some sig := rfl
  rw [verifyProxySignature_iff h]
  have hmsg :
      canonicalMessage (deleteParam [("foo", "1"), ("bar", "2"), ("signature", sig)] "signature") =
        "bar=2foo=1" := rfl
  rw [hmsg]

/-- Closed instance of claim C1: the accepted signature for `foo=1, bar=2`
under secret `shhh` is the stated hex constant. -/
theorem verify_accepts_exactly_hmac_witness :
    verifyProxySignature "shhh"
      [("foo", "1"), ("bar", "2"),
       ("signature", "25d2d5bbb7e2178da8e352c5c31e23cab4e69b9747955b49f0cd080b34f45b25")] = true :=
  (verify_accepts_exactly_hmac.2.1 _).2 verify_accepts_exactly_hmac.2.2.symm

/-! ## Claim C3 -/

/-- Claim C3 (code bug): `verify` is NOT fail-closed in two of the variants.
The route.ts variant has no empty-secret guard, so with the configured
secret empty it accepts a signature forged with the empty HMAC key instead
of returning false; and the part_002 first variant does not wrap
`crypto.timingSafeEqual` in `try`/`catch`, so a supplied signature of a
different byte length throws (`none` here) instead of returning false. The
guarded part_001/part_003 variant, by contrast, does return false on an
empty secret. -/
theorem verify_not_fail_closed :
    verifyProxySignature "" [("foo", "1"), ("signature", hmacSha256Hex "" "foo=1")] = true ∧
    hmacSha256Hex "" "foo=1" =
      "f164298c1daec2465691f7925aa00423fc6df6d24e470ea6c0b43afe7dabe978" ∧
    verifyProxySignatureNoCatch "shhh" [("foo", "1"), ("signature", "deadbeef")] = none ∧
    verifyProxySignatureGuarded "" [("foo", "1"), ("signature", hmacSha256Hex "" "foo=1")] = false := by
  refine ⟨by decide, by decide, by decide, by decide⟩

/-! ## Claim C4 -/

/-- Claim C4: Strategy B `resolve()` returns the cached token with no
exchange when more than 60000 ms remain before its expiry; otherwise it
performs the exchange and on success overwrites the cache with
`{token, expiresAtEpochMs = now + ttl}` and returns the new token, where
the TTL is `expires_in` seconds in milliseconds when present and positive
and 20 minutes otherwise. -/
theorem getAdminAccessToken_cache_and_ttl :
    (∀ (now : Int) (c : CachedToken) (resp : ExchangeResponse),
        c.expiresAtMs - now > 60000 →
        getAdminAccessToken now (some c) resp = ⟨.ok c.token, some c, false⟩) ∧
    (∀ (now : Int) (cache : Option CachedToken) (resp : ExchangeResponse) (t : String),
        (∀ c, cache = some c → ¬(c.expiresAtMs - now > 60000)) →
        resp.ok = true → resp.accessToken = some t → t ≠ "" →
        getAdminAccessToken now cache resp =
          ⟨.ok t, some ⟨t, now + ttlMs resp.expiresIn⟩, true⟩) ∧
    (∀ n : Int, 0 < n → ttlMs (some n) = n * 1000) ∧
    (∀ n : Int, ¬0 < n → ttlMs (some n) = 1200000) ∧
    ttlMs none = 1200000 := by
  have hex : ∀ (now : Int) (cache : Option CachedToken) (resp : ExchangeResponse) (t : String),
      resp.ok = true → resp.accessToken = some t → t ≠ "" →
      tokenExchange now cache resp = ⟨.ok t, some ⟨t, now + ttlMs resp.expiresIn⟩, true⟩ := by
    intro now cache resp t hok htok hne
    have hf : tokenFalsy (some t) = false := by
      simp only [tokenFalsy]
      exact beq_eq_false_iff_ne.mpr hne
    simp [tokenExchange, hok, hf, htok]
  refine ⟨?_, ?_, ?_, ?_, rfl⟩
  · intro now c resp h
    simp [getAdminAccessToken, h]
  · intro now cache resp t hmiss hok htok hne
    cases cache with
    | none => simpa [getAdminAccessToken] using hex now none resp t hok htok hne
    | some c =>
      have hc := hmiss c rfl
      simpa [getAdminAccessToken, hc] using hex now (some c) resp t hok htok hne
  · intro n hn
    simp [ttlMs, hn]
  · intro n hn
    simp [ttlMs, hn]

/-- Closed instance of claim C4: a fresh cache is returned unchanged with no
exchange; a cold cache with a successful exchange carrying
`expires_in = 3600` stores the new token expiring 3 600 000 ms later. -/
theorem getAdminAccessToken_cache_and_ttl_witness :
    getAdminAccessToken 0 (some ⟨"tok", 100000⟩) ⟨true, 200, "OK", some "t2", some 3600⟩ =
      ⟨.ok "tok", some ⟨"tok", 100000⟩, false⟩ ∧
    getAdminAccessToken 5 none ⟨true, 200, "OK", some "t2", some 3600⟩ =
      ⟨.ok "t2", some ⟨"t2", 5 + 3600 * 1000⟩, true⟩ ∧
    ttlMs (some 3600) = 3600 * 1000 := by
  have h := getAdminAccessToken_cache_and_ttl
  refine ⟨h.1 0 ⟨"tok", 100000⟩ _ (by decide), ?_, h.2.2.1 3600 (by decide)⟩
  have h2 := h.2.1 5 none ⟨true, 200, "OK", some "t2", some 3600⟩ "t2"
    (fun c hc => by cases hc) rfl rfl (by decide)
  rw [h2, h.2.2.1 3600 (by decide)]

/-! ## Claim C5 -/

/-- Claim C5: among the stored sessions, the first with `isOnline == false`
and a non-empty access token is selected and its token returned; when no
such session exists the lookup returns `none` without throwing, and the
part_001 `loader` answers the 401 no-offline-session response (status 401,
not 500). -/
theorem offline_lookup_absent_is_401 :
    (∀ (pre post : List (Option Session)) (s : Session),
        (∀ x ∈ pre, isOfflineWithToken x = false) → isOfflineWithToken (some s) = true →
        getOfflineAccessTokenForShop (pre ++ some s :: post) = s.accessToken) ∧
    (∀ sessions : List (Option Session),
        (∀ x ∈ sessions, isOfflineWithToken x = false) →
        getOfflineAccessTokenForShop sessions = none) ∧
    (∀ (secret : String) (params : List (String × String)) (sessions : List (Option Session))
        (stock : Except String Int) (shop : String),
        verifyProxySignatureGuarded secret params = true →
        jsTrim ((getParam params "shop").getD "") = shop → shop ≠ "" →
        isAllDigits ((getParam params "variant").getD "") = true →
        getOfflineAccessTokenForShop sessions = none →
        part1Loader secret params sessions stock = .noOfflineSession shop ∧
        loaderStatus (part1Loader secret params sessions stock) = 401) := by
  refine ⟨?_, ?_, ?_⟩
  · intro pre post s hpre hs
    have hfind : (pre ++ some s :: post).find? isOfflineWithToken = some (some s) := by
      rw [List.find?_append]
      rw [List.find?_eq_none.2 (by intro x hx; simp [hpre x hx])]
      simp [List.find?_cons_of_pos _ hs]
    have htruthy : sessionTokenTruthy s = true := by
      have := hs
      simp only [isOfflineWithToken, Bool.and_eq_true] at this
      exact this.2
    simp [getOfflineAccessTokenForShop, hfind, htruthy]
  · intro sessions hall
    have hfind : sessions.find? isOfflineWithToken = none :=
      List.find?_eq_none.2 (by intro x hx; simp [hall x hx])
    simp [getOfflineAccessTokenForShop, hfind]
  · intro secret params sessions stock shop hver hshop hne hvar hsess
    have : part1Loader secret params sessions stock = .noOfflineSession shop := by
      simp only [part1Loader, hver, Bool.not_true, Bool.false_eq_true, if_false, hshop, hvar,
        Bool.not_false, hsess, if_neg hne]
    exact ⟨this, by rw [this]; rfl⟩

/-- Closed instance of claim C5: the first offline session's token wins, an
all-online store yields `none`, and a signed request against an empty
session store gets the 401 no-offline-session response. -/
theorem offline_lookup_absent_is_401_witness :
    getOfflineAccessTokenForShop
        [some ⟨true, some "on"⟩, some ⟨false, some "offtok"⟩, some ⟨false, some "later"⟩] =
      some "offtok" ∧
    getOfflineAccessTokenForShop [none, some ⟨true, some "on"⟩, some ⟨false, none⟩] = none ∧
    part1Loader "shhh"
        [("shop", "s.myshopify.com"), ("variant", "42"), ("signature", "7e3112fd6fff710b849944fd67c2793f5c53a8f4c1647b2ff55ed0f5ac705101")]
        [] (.ok 5) = .noOfflineSession "s.myshopify.com" ∧
    loaderStatus (part1Loader "shhh"
        [("shop", "s.myshopify.com"), ("variant", "42"), ("signature", "7e3112fd6fff710b849944fd67c2793f5c53a8f4c1647b2ff55ed0f5ac705101")]
        [] (.ok 5)) = 401 := by
  have h := offline_lookup_absent_is_401
  have h1 := h.1 [some ⟨true, some "on"⟩] [some ⟨false, some "later"⟩] ⟨false, some "offtok"⟩
    (by decide) (by decide)
  have h2 := h.2.1 [none, some ⟨true, some "on"⟩, some ⟨false, none⟩] (by decide)
  have h3 := h.2.2 "shhh"
    [("shop", "s.myshopify.com"), ("variant", "42"), ("signature", "7e3112fd6fff710b849944fd67c2793f5c53a8f4c1647b2ff55ed0f5ac705101")]
    [] (.ok 5) "s.myshopify.com" (by decide) (by decide) (by decide) (by decide) rfl
  exact ⟨h1, h2, h3.1, h3.2⟩

/-! ## Claim C6 -/

/-- Claim C6: the country → location mapping is total and case-insensitive:
`UK`/`GB` in any letter case map to the UK location, `US` to the US
location, and everything else — absent or unknown codes such as `FR` —
defaults to the UK location. -/
theorem location_mapping_total (ukLoc usLoc : String) :
    (∀ s : String, toUpperCase s = "GB" ∨ toUpperCase s = "UK" →
        locationIdFor ukLoc usLoc (some s) = ukLoc) ∧
    (∀ s : String, toUpperCase s = "US" → locationIdFor ukLoc usLoc (some s) = usLoc) ∧
    (∀ s : String, toUpperCase s ≠ "GB" → toUpperCase s ≠ "UK" → toUpperCase s ≠ "US" →
        locationIdFor ukLoc usLoc (some s) = ukLoc) ∧
    locationIdFor ukLoc usLoc none = ukLoc ∧
    (∀ r : Option String, locationIdFor ukLoc usLoc r = ukLoc ∨ locationIdFor ukLoc usLoc r = usLoc) ∧
    locationIdFor ukLoc usLoc (some "FR") = ukLoc ∧
    locationIdFor ukLoc usLoc (some "gb") = ukLoc ∧
    locationIdFor ukLoc usLoc (some "Uk") = ukLoc ∧
    locationIdFor ukLoc usLoc (some "us") = usLoc := by
  have e0 : toUpperCase "" = "" := rfl
  have e1 : toUpperCase "FR" = "FR" := rfl
  have e2 : toUpperCase "gb" = "GB" := rfl
  have e3 : toUpperCase "Uk" = "UK" := rfl
  have e4 : toUpperCase "us" = "US" := rfl
  refine ⟨?_, ?_, ?_, by simp [locationIdFor, e0], ?_, by simp [locationIdFor, e1],
    by simp [locationIdFor, e2], by simp [locationIdFor, e3], by simp [locationIdFor, e4]⟩
  · rintro s (h | h) <;> simp [locationIdFor, h]
  · intro s h
    simp [locationIdFor, h]
  · intro s h1 h2 h3
    simp [locationIdFor, h1, h2, h3]
  · intro r
    unfold locationIdFor
    dsimp only
    split_ifs <;> simp

/-- Closed instance of claim C6: mixed-case and unknown codes at concrete
location identifiers. -/
theorem location_mapping_total_witness :
    locationIdFor "L-UK" "L-US" (some "fr") = "L-UK" ∧
    locationIdFor "L-UK" "L-US" (some "Gb") = "L-UK" ∧
    locationIdFor "L-UK" "L-US" (some "uS") = "L-US" :=
  ⟨(location_mapping_total "L-UK" "L-US").2.2.1 "fr" (by decide) (by decide) (by decide),
   (location_mapping_total "L-UK" "L-US").1 "Gb" (Or.inl (by decide)),
   (location_mapping_total "L-UK" "L-US").2.1 "uS" (by decide)⟩

/-! ## Claim C7 -/

/-- Claim C7: when the upstream GraphQL call succeeds (2xx and no errors
array) but the `available` field is missing, null or not numeric, the
lookup returns quantity 0 rather than failing, and the response body then
reports qty 0 and available false; a numeric field is passed through. -/
theorem qty_defaults_to_zero :
    (∀ f : JsonField, f = .missing ∨ f = .nullVal ∨ (∃ s, f = .nonNumeric s) →
        getStockAtLocation true false f = .ok 0 ∧ mkStockBody (qtyOf f) = ⟨0, false⟩) ∧
    (∀ q : Int, getStockAtLocation true false (.num q) = .ok q) := by
  constructor
  · rintro f (rfl | rfl | ⟨s, rfl⟩) <;> exact ⟨rfl, rfl⟩
  · intro q
    rfl

/-- Closed instance of claim C7 at `available: null`. -/
theorem qty_defaults_to_zero_witness :
    getStockAtLocation true false .nullVal = .ok 0 ∧
    mkStockBody (qtyOf .nullVal) = ⟨0, false⟩ :=
  qty_defaults_to_zero.1 .nullVal (Or.inr (Or.inl rfl))

/-! ## Claim C9 -/

/-- Claim C9: two resolver calls while the cached token has more than 60 s
remaining both return the identical cached token and perform zero
exchanges; when the first call is within 60 s of the cached expiry and the
exchange succeeds, the pair of calls performs exactly one exchange (the
second hits the refreshed cache). -/
theorem token_resolver_two_calls :
    (∀ (c : CachedToken) (now1 now2 : Int) (resp : ExchangeResponse),
        c.expiresAtMs - now1 > 60000 → c.expiresAtMs - now2 > 60000 →
        getAdminAccessToken now1 (some c) resp = ⟨.ok c.token, some c, false⟩ ∧
        getAdminAccessToken now2 (getAdminAccessToken now1 (some c) resp).cache resp =
          ⟨.ok c.token, some c, false⟩) ∧
    (∀ (c : CachedToken) (now1 now2 : Int) (resp : ExchangeResponse) (t : String),
        ¬(c.expiresAtMs - now1 > 60000) →
        resp.ok = true → resp.accessToken = some t → t ≠ "" →
        (now1 + ttlMs resp.expiresIn) - now2 > 60000 →
        (getAdminAccessToken now1 (some c) resp).exchanged = true ∧
        getAdminAccessToken now2 (getAdminAccessToken now1 (some c) resp).cache resp =
          ⟨.ok t, some ⟨t, now1 + ttlMs resp.expiresIn⟩, false⟩) := by
  constructor
  · intro c now1 now2 resp h1 h2
    have r1 : getAdminAccessToken now1 (some c) resp = ⟨.ok c.token, some c, false⟩ := by
      simp [getAdminAccessToken, h1]
    refine ⟨r1, ?_⟩
    rw [r1]
    simp [getAdminAccessToken, h2]
  · intro c now1 now2 resp t h1 hok htok hne h2
    have hf : tokenFalsy (some t) = false := by
      simp only [tokenFalsy]
      exact beq_eq_false_iff_ne.mpr hne
    have r1 : getAdminAccessToken now1 (some c) resp =
        ⟨.ok t, some ⟨t, now1 + ttlMs resp.expiresIn⟩, true⟩ := by
      simp [getAdminAccessToken, h1, tokenExchange, hok, hf, htok]
    refine ⟨by rw [r1], ?_⟩
    rw [r1]
    simp [getAdminAccessToken, h2]

/-- Closed instance of claim C9: fresh cache → two hits, no exchange; cache
60 s from expiry → one exchange then a hit on the refreshed token. -/
theorem token_resolver_two_calls_witness :
    (getAdminAccessToken 0 (some ⟨"tok", 100000⟩) ⟨true, 200, "OK", some "t2", none⟩ =
        ⟨.ok "tok", some ⟨"tok", 100000⟩, false⟩ ∧
      getAdminAccessToken 10
          (getAdminAccessToken 0 (some ⟨"tok", 100000⟩) ⟨true, 200, "OK", some "t2", none⟩).cache
          ⟨true, 200, "OK", some "t2", none⟩ =
        ⟨.ok "tok", some ⟨"tok", 100000⟩, false⟩) ∧
    ((getAdminAccessToken 0 (some ⟨"tok", 50000⟩) ⟨true, 200, "OK", some "t2", none⟩).exchanged =
        true ∧
      getAdminAccessToken 10
          (getAdminAccessToken 0 (some ⟨"tok", 50000⟩) ⟨true, 200, "OK", some "t2", none⟩).cache
          ⟨true, 200, "OK", some "t2", none⟩ =
        ⟨.ok "t2", some ⟨"t2", 0 + ttlMs none⟩, false⟩) :=
  ⟨token_resolver_two_calls.1 ⟨"tok", 100000⟩ 0 10 _ (by decide) (by decide),
   token_resolver_two_calls.2 ⟨"tok", 50000⟩ 0 10 _ "t2" (by decide) rfl rfl (by decide)
     (by decide)⟩

/-! ## Claim C10 -/

/-- Claim C10: when the token exchange fails — non-success HTTP status, or a
body without a usable `access_token` — the call throws (errs) and the
process-wide cache is left exactly as it was, neither cleared nor
overwritten. -/
theorem exchange_failure_preserves_cache :
    ∀ (now : Int) (cache : Option CachedToken) (resp : ExchangeResponse),
      (∀ c, cache = some c → ¬(c.expiresAtMs - now > 60000)) →
      (resp.ok = false ∨ tokenFalsy resp.accessToken = true) →
      (∃ e, (getAdminAccessToken now cache resp).result = .err e) ∧
      (getAdminAccessToken now cache resp).cache = cache := by
  intro now cache resp hmiss hfail
  have hbody : (∃ e, (tokenExchange now cache resp).result = .err e) ∧
      (tokenExchange now cache resp).cache = cache := by
    cases hok : resp.ok with
    | false => exact ⟨⟨.httpError resp.status resp.statusText, by simp [tokenExchange, hok]⟩,
        by simp [tokenExchange, hok]⟩
    | true =>
      have hf : tokenFalsy resp.accessToken = true := by
        rcases hfail with h | h
        · rw [hok] at h; cases h
        · exact h
      exact ⟨⟨.noAccessToken, by simp [tokenExchange, hok, hf]⟩, by simp [tokenExchange, hok, hf]⟩
  cases cache with
  | none => simpa [getAdminAccessToken] using hbody
  | some c =>
    have hc := hmiss c rfl
    simpa [getAdminAccessToken, hc] using hbody

/-- Closed instance of claim C10: a 401 from the token endpoint and a body
with no `access_token` both leave the stale cache entry in place. -/
theorem exchange_failure_preserves_cache_witness :
    (∃ e, (getAdminAccessToken 0 (some ⟨"stale", 1000⟩)
        ⟨false, 401, "Unauthorized", none, none⟩).result = .err e) ∧
    (getAdminAccessToken 0 (some ⟨"stale", 1000⟩)
        ⟨false, 401, "Unauthorized", none, none⟩).cache = some ⟨"stale", 1000⟩ :=
  exchange_failure_preserves_cache 0 (some ⟨"stale", 1000⟩)
    ⟨false, 401, "Unauthorized", none, none⟩
    (by intro c hc; cases hc; decide) (Or.inl rfl)

/-! ## Claim C2 -/

/-- Claim C2 counterexample: with keys `a` and `B`, the code (which sorts
with JS `localeCompare`) signs the message `a=2B=1`, while the spec's
byte/codepoint ordering yields `B=1a=2`; the two orderings disagree, and
the verifier rejects the signature computed over the codepoint-sorted
message (shown with its concrete hex value). -/
theorem localeCompare_sort_differs_from_codepoint :
    canonicalMessage [("a", "2"), ("B", "1")] = "a=2B=1" ∧
    specCodepointMessage [("a", "2"), ("B", "1")] = "B=1a=2" ∧
    canonicalMessage [("a", "2"), ("B", "1")] ≠ specCodepointMessage [("a", "2"), ("B", "1")] ∧
    hmacSha256Hex "shhh" "B=1a=2" =
      "8625a0555b1e74c4d4e28c299c515f54d71c250206e6906272f51f715470bc22" ∧
    verifyProxySignature "shhh" [("a", "2"), ("B", "1"),
        ("signature", "8625a0555b1e74c4d4e28c299c515f54d71c250206e6906272f51f715470bc22")] =
      false :=
  ⟨by decide, by decide, by decide, by decide, by decide⟩

/-- Claim C2 (amended): the verifier sorts the remaining pairs with JS
`localeCompare` — locale-aware collation, not codepoint order. The two
orderings agree whenever every key consists of lowercase ASCII letters and
digits (which covers the platform's actual proxy parameter names), and
under that restriction acceptance is equivalent to matching the HMAC over
the codepoint-sorted message; they do not agree for every parameter set
(mixed-case keys differ — see the counterexample). -/
theorem sort_matches_codepoint_for_lowercase_keys :
    (∀ params : List (String × String),
        (∀ p ∈ params, ∀ c ∈ p.1.data, lowerAlnum c.toNat) →
        canonicalMessage params = specCodepointMessage params) ∧
    (∀ (params : List (String × String)) (secret sig : String),
        (∀ p ∈ params, ∀ c ∈ p.1.data, lowerAlnum c.toNat) →
        getParam params "signature" = some sig →
        (verifyProxySignature secret params = true ↔
          sig = hmacSha256Hex secret (specCodepointMessage (deleteParam params "signature")))) := by
  refine ⟨lowerKeys_canonical_eq_spec, ?_⟩
  intro params secret sig h hsig
  have hdel : ∀ p ∈ deleteParam params "signature", ∀ c ∈ p.1.data, lowerAlnum c.toNat := by
    intro p hp
    exact h p (List.mem_filter.1 hp).1
  rw [verifyProxySignature_iff hsig, lowerKeys_canonical_eq_spec _ hdel]

/-- Closed instance of the amended claim C2 at the spec's scenario keys
`foo`, `bar` (all lowercase). -/
theorem sort_matches_codepoint_for_lowercase_keys_witness :
    verifyProxySignature "shhh" [("foo", "1"), ("bar", "2"), ("signature", "x")] = true ↔
      "x" = hmacSha256Hex "shhh"
          (specCodepointMessage
            (deleteParam [("foo", "1"), ("bar", "2"), ("signature", "x")] "signature")) :=
  sort_matches_codepoint_for_lowercase_keys.2
    [("foo", "1"), ("bar", "2"), ("signature", "x")] "shhh" "x" (by decide) rfl

/-! ## Claim C8 -/

/-- Claim C8 counterexample: two inputs holding exactly the same key/value
pairs (keys duplicated) and the same signature verify differently — the
stable sort keeps the insertion order of equal keys, so the signed messages
are `a=1a=2` and `a=2a=1`. The signature is the concrete
HMAC-SHA256 of `a=1a=2` under secret `shhh`. -/
theorem verify_depends_on_order_of_duplicate_keys :
    (([("a", "2"), ("a", "1"),
        ("signature", "264879ebfabb86038301fe94b604c40af26fb9d8f377dc31edcfc560c98451e2")] :
      List (String × String)).Perm
      [("a", "1"), ("a", "2"),
        ("signature", "264879ebfabb86038301fe94b604c40af26fb9d8f377dc31edcfc560c98451e2")]) ∧
    verifyProxySignature "shhh"
      [("a", "1"), ("a", "2"),
        ("signature", "264879ebfabb86038301fe94b604c40af26fb9d8f377dc31edcfc560c98451e2")] =
      true ∧
    verifyProxySignature "shhh"
      [("a", "2"), ("a", "1"),
        ("signature", "264879ebfabb86038301fe94b604c40af26fb9d8f377dc31edcfc560c98451e2")] =
      false :=
  ⟨List.Perm.swap _ _ _, by decide, by decide⟩

/-- Claim C8 (amended): permutation invariance of the verifier holds for
parameter sets whose keys are pairwise distinct (the spec's `k1<...<kn`
setting): any two insertion orders of the same distinct-keyed pairs, with
the same signature among them, verify identically. With duplicate keys the
outcome can depend on insertion order — see the counterexample. -/
theorem verify_perm_invariant_nodup_keys (secret : String)
    {p1 p2 : List (String × String)} (hperm : p1.Perm p2)
    (hnd : (p1.map Prod.fst).Nodup) :
    verifyProxySignature secret p1 = verifyProxySignature secret p2 := by
  have hsig : getParam p1 "signature" = getParam p2 "signature" :=
    getParam_perm hperm hnd "signature"
  have hdel : (deleteParam p1 "signature").Perm (deleteParam p2 "signature") :=
    hperm.filter _
  have hndd : ((deleteParam p1 "signature").map Prod.fst).Nodup :=
    List.Nodup.sublist (List.Sublist.map Prod.fst (List.filter_sublist p1)) hnd
  have hmsg : canonicalMessage (deleteParam p1 "signature") =
      canonicalMessage (deleteParam p2 "signature") := by
    unfold canonicalMessage
    congr 1
    refine sorted_perm_nodup_eq (pairwise_sortPairs _) (pairwise_sortPairs _) ?_ ?_
    · exact (sortPairs_perm _ _).trans (hdel.trans (sortPairs_perm _ _).symm)
    · exact (List.Perm.nodup_iff
        (List.Perm.map Prod.fst (sortPairs_perm localeCompare _))).2 hndd
  unfold verifyProxySignature
  rw [hsig, hmsg]

/-- Closed instance of the amended claim C8: reversing the insertion order
of three distinct-keyed parameters leaves the verifier's output unchanged. -/
theorem verify_perm_invariant_nodup_keys_witness :
    verifyProxySignature "shhh" [("foo", "1"), ("bar", "2"), ("signature", "s")] =
      verifyProxySignature "shhh" [("signature", "s"), ("bar", "2"), ("foo", "1")] :=
  verify_perm_invariant_nodup_keys "shhh" (by decide) (by decide)

end CfInventory
